import Mathlib

/-!
# Verification of the sliding-window rate limiter of OCR-Chat-Extractor

This file gives a shallow embedding of the rate limiter implemented twice in
the repository: `check_rate_limit` / `rate_limit_status` in
`src/backend/app.py`, and `check_rate_limit` / the `rate_limit` decorator in
`src/api/index.py`.

Modelling decisions:
* Time is modelled as `Int` (seconds).  `datetime` arithmetic in the source is
  exact, so `now - req_time < RATE_LIMIT_WINDOW` maps to integer comparison;
  `RATE_LIMIT_WINDOW = timedelta(hours=1)` is `3600` seconds.
* The global `request_tracker = defaultdict(list)` is a total function
  `String → List Int` (the defaultdict default is the empty list).
* `datetime.now()` is injected as an explicit `now : Int` argument, one per
  call; in the running program consecutive calls observe non-decreasing
  values, which is stated as an explicit hypothesis where a property needs it.
* Python exceptions are modelled with `Option`: `min([])` raising `ValueError`
  (reachable only when `RATE_LIMIT = 0`) makes the backend `check_rate_limit`
  return `none`; `[...][0]` on an empty list likewise.
* `RATE_LIMIT` and `RATE_LIMIT_WINDOW` are module-level constants in the
  source (10 and one hour); the definitions take them as parameters `limit`
  and `window` so that properties quantified over `LIMIT >= 1` can be stated,
  and the source's values are the constants `RATE_LIMIT`, `RATE_LIMIT_WINDOW`
  below.
-/

/-- One client's window of accepted-request timestamps, each an `Int` number
of seconds (`request_tracker[client_id]`). -/
abbrev ClientWindow := List Int

/-- The global `request_tracker = defaultdict(list)`:
a total map from client identifier to its window, defaulting to `[]`. -/
abbrev Tracker := String → ClientWindow

/-- `RATE_LIMIT = 10` (both `src/backend/app.py:36` and `src/api/index.py:20`). -/
def RATE_LIMIT : Nat := 10

/-- `RATE_LIMIT_WINDOW = timedelta(hours=1)`, i.e. 3600 seconds
(both `src/backend/app.py:37` and `src/api/index.py:21`). -/
def RATE_LIMIT_WINDOW : Int := 3600

/-- A fresh `defaultdict(list)`: every client's window is empty. -/
def emptyTracker : Tracker := fun _ => []

/-- `request_tracker[client_id] = w`: point update of the tracker. -/
def setWindow (tr : Tracker) (c : String) (w : ClientWindow) : Tracker :=
  fun c2 => if c2 = c then w else tr c2

/-- The prune step shared verbatim by both `check_rate_limit` variants and by
`rate_limit_status`:
`[req_time for req_time in request_tracker[client_id] if now - req_time < RATE_LIMIT_WINDOW]`. -/
def pruneWindow (window : Int) (now : Int) (w : ClientWindow) : ClientWindow :=
  w.filter (fun t => decide (now - t < window))

namespace Backend

/-- `check_rate_limit(client_id)` from `src/backend/app.py` lines 91-109.

Returns `some ((allowed, value), tracker')` where `value` is the remaining
quota on admission and `time_until_reset` (seconds) on rejection, and
`tracker'` is the mutated `request_tracker`.  Returns `none` exactly when the
Python code would raise (`min` of the empty pruned list, reachable only for
`limit = 0`); note Python has already stored the pruned list before `min`
runs, which the state-step function `stepState` below records. -/
def check_rate_limit (limit : Nat) (window : Int) (tr : Tracker) (client_id : String)
    (now : Int) : Option ((Bool × Int) × Tracker) :=
  let pruned := pruneWindow window now (tr client_id)
  let tr1 := setWindow tr client_id pruned
  if limit ≤ pruned.length then
    match pruned.min? with
    | some oldest => some ((false, oldest + window - now), tr1)
    | none => none
  else
    let w2 := pruned ++ [now]
    some ((true, (limit : Int) - (w2.length : Int)), setWindow tr1 client_id w2)

/-- The JSON body built by `rate_limit_status` (`src/backend/app.py:342-348`),
without the constant `'window': 'per jam'` field. -/
structure StatusResult where
  limit : Nat
  used : Nat
  remaining : Int
  reset_in_seconds : Int

/-- `rate_limit_status()` from `src/backend/app.py` lines 319-348: prunes the
caller's window in place, then reports usage.  `seconds_until_reset` is
`(min(window) + RATE_LIMIT_WINDOW - now)` when the pruned window is non-empty
(the `if request_tracker[client_id]:` guard) and `0` otherwise; the response
field is `max(0, int(seconds_until_reset))`. -/
def rate_limit_status (limit : Nat) (window : Int) (tr : Tracker) (client_id : String)
    (now : Int) : StatusResult × Tracker :=
  let pruned := pruneWindow window now (tr client_id)
  let tr1 := setWindow tr client_id pruned
  let used := pruned.length
  let seconds_until_reset : Int :=
    match pruned.min? with
    | some oldest => oldest + window - now
    | none => 0
  (⟨limit, used, (limit : Int) - (used : Int), max 0 seconds_until_reset⟩, tr1)

end Backend

namespace Api

/-- `check_rate_limit(client_id)` from `src/api/index.py` lines 30-43: same
prune / compare / append as the backend variant, but returns a bare `Bool`. -/
def check_rate_limit (limit : Nat) (window : Int) (tr : Tracker) (client_id : String)
    (now : Int) : Bool × Tracker :=
  let pruned := pruneWindow window now (tr client_id)
  let tr1 := setWindow tr client_id pruned
  if limit ≤ pruned.length then
    (false, tr1)
  else
    (true, setWindow tr1 client_id (pruned ++ [now]))

/-- The client identifier derivation of the `rate_limit` decorator
(`src/api/index.py:50`):
`request.headers.get('X-API-Key', '')[:8] or request.remote_addr`.
`headers.get` with default `''` is modelled by `Option.getD`; Python string
slicing `[:8]` by `String.take 8`; `or` falls through exactly when the left
operand is the empty (falsy) string. -/
def client_id_of (api_key_header : Option String) (remote_addr : String) : String :=
  let k := (api_key_header.getD "").take 8
  if k = "" then remote_addr else k

/-- The `retry_after` computation of the `rate_limit` decorator
(`src/api/index.py:52`):
`RATE_LIMIT_WINDOW - (datetime.now() - request_tracker[client_id][0])`,
reading the *head* of the window (index 0), `none` modelling the `IndexError`
on an empty window. -/
def retry_of_head (window : Int) (tr : Tracker) (client_id : String)
    (now : Int) : Option Int :=
  ((tr client_id).head?).map (fun t0 => window - (now - t0))

end Api

/-- The rejection-path `time_until_reset` formula of the backend
(`src/backend/app.py:102-103`), as a standalone reading of a tracker:
`min(request_tracker[client_id]) + RATE_LIMIT_WINDOW - now`. -/
def retry_of_min (window : Int) (tr : Tracker) (client_id : String)
    (now : Int) : Option Int :=
  ((tr client_id).min?).map (fun oldest => oldest + window - now)

/-- One limiter call: an admission attempt (`check_rate_limit`) or a
status query (`rate_limit_status`), each carrying the client id and the value
`datetime.now()` returns during that call. -/
inductive Op where
  | admitCall (client : String) (now : Int)
  | status (client : String) (now : Int)

/-- The clock value a call observes. -/
def Op.time : Op → Int
  | .admitCall _ now => now
  | .status _ now => now

/-- The effect of one call on `request_tracker`.  This is the exact state
mutation of both `check_rate_limit` variants (prune, then append on
admission — the pruned list is stored even on the rejection/crash path, since
Python assigns it before `min` runs) and of `rate_limit_status` (prune
only). -/
def stepState (limit : Nat) (window : Int) (tr : Tracker) : Op → Tracker
  | .admitCall c now =>
    let pruned := pruneWindow window now (tr c)
    if limit ≤ pruned.length then setWindow tr c pruned
    else setWindow tr c (pruned ++ [now])
  | .status c now => setWindow tr c (pruneWindow window now (tr c))

/-- The tracker after a sequence of calls. -/
def runState (limit : Nat) (window : Int) : List Op → Tracker → Tracker
  | [], tr => tr
  | op :: rest, tr => runState limit window rest (stepState limit window tr op)

/-- The results of the admission attempts in a sequence of calls (status
queries return nothing), each as `(allowed, value)`, `none` marking the
`min([])` crash. -/
def admitResults (limit : Nat) (window : Int) : List Op → Tracker → List (Option (Bool × Int))
  | [], _ => []
  | .admitCall c now :: rest, tr =>
    (Backend.check_rate_limit limit window tr c now).map Prod.fst ::
      admitResults limit window rest (stepState limit window tr (.admitCall c now))
  | .status c now :: rest, tr =>
    admitResults limit window rest (stepState limit window tr (.status c now))

/-- Keep only the admission attempts of a call sequence. -/
def removeStatus (ops : List Op) : List Op :=
  ops.filter (fun op => match op with | .admitCall _ _ => true | .status _ _ => false)

/-- `timesFrom T ops`: every call in `ops` observes a clock value `≥ T`, and
the observed values are non-decreasing along the sequence — what consecutive
`datetime.now()` reads guarantee in the running program. -/
def timesFrom (T : Int) : List Op → Bool
  | [] => true
  | op :: rest => decide (T ≤ op.time) && timesFrom op.time rest

/-- Two trackers are observationally equal at time `T` when every client's
window prunes to the same list at `T`: no call at a time `≥ T` can tell them
apart. -/
def WindowEq (window T : Int) (tr tr2 : Tracker) : Prop :=
  ∀ c, pruneWindow window T (tr c) = pruneWindow window T (tr2 c)

/-- Every window ascending, and every stored timestamp `≤ T`. -/
def SortedBelow (tr : Tracker) (T : Int) : Prop :=
  ∀ c, (tr c).Sorted (· ≤ ·) ∧ ∀ t ∈ tr c, t ≤ T

/-- Run the backend `check_rate_limit` over a sequence of `(client, now)`
calls, collecting every result.  On the (limit = 0 only) `min([])` crash the
run aborts, as the Python exception would abort the request sequence; the
pruned window has already been stored at that point. -/
def backendRunChecks (limit : Nat) (window : Int) :
    List (String × Int) → Tracker → List (Option (Bool × Int)) × Tracker
  | [], tr => ([], tr)
  | (c, now) :: rest, tr =>
    match Backend.check_rate_limit limit window tr c now with
    | some (r, tr2) =>
      let next := backendRunChecks limit window rest tr2
      (some r :: next.1, next.2)
    | none => ([none], setWindow tr c (pruneWindow window now (tr c)))

/-- `≤` on `Int` is antisymmetric (instance needed by `List.min?` lemmas). -/
instance : Std.Antisymm ((· ≤ ·) : Int → Int → Prop) :=
  ⟨fun h h2 => le_antisymm h h2⟩


/-- Run the api `check_rate_limit` over a sequence of `(client, now)` calls,
collecting each bare boolean result. -/
def apiRunChecks (limit : Nat) (window : Int) :
    List (String × Int) → Tracker → List Bool × Tracker
  | [], tr => ([], tr)
  | (c, now) :: rest, tr =>
    let res := Api.check_rate_limit limit window tr c now
    let next := apiRunChecks limit window rest res.2
    (res.1 :: next.1, next.2)

/-! ## Helper lemmas -/

theorem setWindow_same (tr : Tracker) (c : String) (w : ClientWindow) :
    setWindow tr c w c = w := by
  simp [setWindow]

theorem setWindow_other (tr : Tracker) (c c2 : String) (w : ClientWindow)
    (h : c2 ≠ c) : setWindow tr c w c2 = tr c2 := by
  simp [setWindow, h]

theorem setWindow_setWindow (tr : Tracker) (c : String) (w w2 : ClientWindow) :
    setWindow (setWindow tr c w) c w2 = setWindow tr c w2 := by
  funext c2
  simp only [setWindow]
  split <;> rfl

theorem length_pruneWindow_le (window : Int) (now : Int) (l : ClientWindow) :
    (pruneWindow window now l).length ≤ l.length :=
  List.length_filter_le _ l

theorem mem_pruneWindow {window : Int} {now t : Int} {l : ClientWindow} :
    t ∈ pruneWindow window now l ↔ t ∈ l ∧ now - t < window := by
  simp [pruneWindow, List.mem_filter]

theorem pruneWindow_pruneWindow {window : Int} {now now2 : Int}
    (l : ClientWindow) (h : now ≤ now2) :
    pruneWindow window now2 (pruneWindow window now l) = pruneWindow window now2 l := by
  simp only [pruneWindow, List.filter_filter]
  apply List.filter_congr
  intro t _
  by_cases h2 : now2 - t < window
  · have h1 : now - t < window := by omega
    simp [h1, h2]
  · simp [h2]

theorem pruneWindow_idem {window : Int} {now : Int} (l : ClientWindow) :
    pruneWindow window now (pruneWindow window now l) = pruneWindow window now l :=
  pruneWindow_pruneWindow l le_rfl

theorem pruneWindow_replicate_self {window : Int} (hw : 0 < window)
    (now : Int) (n : Nat) :
    pruneWindow window now (List.replicate n now) = List.replicate n now := by
  induction n with
  | zero => rfl
  | succ n ih =>
    have hkeep : now - now < window := by omega
    simp only [List.replicate_succ, pruneWindow, List.filter_cons,
      decide_eq_true hkeep, if_true]
    simpa [pruneWindow] using ih

/-- `List.min?` on `Int` lists picks a member that lower-bounds the list. -/
theorem int_min?_eq_some_iff {xs : List Int} {a : Int} :
    xs.min? = some a ↔ a ∈ xs ∧ ∀ b ∈ xs, a ≤ b :=
  List.min?_eq_some_iff (fun _ => le_refl _) (fun _ _ => min_choice _ _)
    (fun _ _ _ => le_min_iff)

theorem int_min?_isSome {xs : List Int} (h : xs ≠ []) : ∃ m, xs.min? = some m := by
  cases hx : xs.min? with
  | none => exact absurd (List.min?_eq_none_iff.mp hx) h
  | some m => exact ⟨m, rfl⟩

/-- In a `≤`-sorted list the head is the minimum: this is what lets
`src/api/index.py` read `request_tracker[client_id][0]` where
`src/backend/app.py` computes `min(request_tracker[client_id])`. -/
theorem sorted_head?_eq_min? {l : List Int} (h : l.Sorted (· ≤ ·)) :
    l.head? = l.min? := by
  cases l with
  | nil => rfl
  | cons a l =>
    simp only [List.head?, List.min?_cons']
    have hle : ∀ b ∈ l, a ≤ b := fun b hb => (List.sorted_cons.mp h).1 b hb
    clear h
    induction l generalizing a with
    | nil => rfl
    | cons b l ih =>
      simp only [List.foldl_cons]
      have hab : a ≤ b := hle b (by simp)
      rw [min_eq_left hab]
      exact ih a fun x hx => hle x (by simp [hx])

/-- With a positive limit, the backend `check_rate_limit` never hits the
`min([])` crash: the rejection branch implies a non-empty pruned window. -/
theorem backend_check_isSome (limit : Nat) (window : Int) (tr : Tracker)
    (c : String) (now : Int) (hl : 1 ≤ limit) :
    ∃ r, Backend.check_rate_limit limit window tr c now = some r := by
  simp only [Backend.check_rate_limit]
  by_cases hb : limit ≤ (pruneWindow window now (tr c)).length
  · have hne : pruneWindow window now (tr c) ≠ [] := by
      intro he
      rw [he] at hb
      simp only [List.length_nil, Nat.le_zero] at hb
      omega
    obtain ⟨m, hm⟩ := int_min?_isSome hne
    rw [if_pos hb, hm]
    exact ⟨_, rfl⟩
  · rw [if_neg hb]
    exact ⟨_, rfl⟩

/-- The tracker the backend `check_rate_limit` leaves behind is `stepState`
of an `admit` call. -/
theorem backend_check_tracker_eq_step {limit : Nat} {window : Int} {tr : Tracker}
    {c : String} {now : Int} {r : Bool × Int} {tr2 : Tracker}
    (h : Backend.check_rate_limit limit window tr c now = some (r, tr2)) :
    tr2 = stepState limit window tr (Op.admitCall c now) := by
  simp only [Backend.check_rate_limit] at h
  simp only [stepState]
  by_cases hb : limit ≤ (pruneWindow window now (tr c)).length
  · rw [if_pos hb] at h
    rw [if_pos hb]
    cases hm : (pruneWindow window now (tr c)).min? with
    | none => rw [hm] at h; cases h
    | some m =>
      rw [hm] at h
      simp only [Option.some.injEq, Prod.mk.injEq] at h
      exact h.2.symm
  · rw [if_neg hb] at h
    rw [if_neg hb]
    simp only [Option.some.injEq, Prod.mk.injEq] at h
    rw [← h.2, setWindow_setWindow]

/-- The tracker the api `check_rate_limit` leaves behind is `stepState` of an
`admit` call. -/
theorem api_check_tracker_eq_step (limit : Nat) (window : Int) (tr : Tracker)
    (c : String) (now : Int) :
    (Api.check_rate_limit limit window tr c now).2
      = stepState limit window tr (Op.admitCall c now) := by
  simp only [Api.check_rate_limit, stepState]
  by_cases hb : limit ≤ (pruneWindow window now (tr c)).length
  · simp only [if_pos hb]
  · simp only [if_neg hb, setWindow_setWindow]

/-- The tracker `rate_limit_status` leaves behind is `stepState` of a
`status` call. -/
theorem status_tracker_eq_step (limit : Nat) (window : Int) (tr : Tracker)
    (c : String) (now : Int) :
    (Backend.rate_limit_status limit window tr c now).2
      = stepState limit window tr (Op.status c now) := rfl

/-- The backend decision (and its value) depends on the tracker only through
the caller's pruned window. -/
theorem backend_check_fst_congr {limit : Nat} {window : Int} (tr tr2 : Tracker)
    (c : String) (now : Int)
    (h : pruneWindow window now (tr c) = pruneWindow window now (tr2 c)) :
    (Backend.check_rate_limit limit window tr c now).map Prod.fst
      = (Backend.check_rate_limit limit window tr2 c now).map Prod.fst := by
  simp only [Backend.check_rate_limit, h]
  by_cases hb : limit ≤ (pruneWindow window now (tr2 c)).length
  · rw [if_pos hb, if_pos hb]
    cases (pruneWindow window now (tr2 c)).min? <;> rfl
  · rw [if_neg hb, if_neg hb]
    rfl

/-- Iterating `admit c now` on a tracker whose `c`-window is `k` copies of
`now` (`k ≤ limit`) tops the window up to `min (k + n) limit` copies. -/
theorem runState_replicate_admits (limit : Nat) (window : Int) (c : String)
    (now : Int) (hw : 0 < window) :
    ∀ (n k : Nat) (tr : Tracker), tr c = List.replicate k now → k ≤ limit →
      runState limit window (List.replicate n (Op.admitCall c now)) tr c
        = List.replicate (min (k + n) limit) now := by
  intro n
  induction n with
  | zero =>
    intro k tr h hk
    simp only [List.replicate, runState, h]
    congr 1
    omega
  | succ n ih =>
    intro k tr h hk
    rw [List.replicate_succ]
    simp only [runState, stepState, h, pruneWindow_replicate_self hw,
      List.length_replicate]
    by_cases hb : limit ≤ k
    · rw [if_pos hb]
      have hk2 : k = limit := le_antisymm hk hb
      rw [ih k (setWindow tr c (List.replicate k now)) (setWindow_same ..) hk]
      congr 1
      omega
    · rw [if_neg hb]
      have happ : List.replicate k now ++ [now] = List.replicate (k + 1) now :=
        (List.replicate_succ' ..).symm
      rw [happ, ih (k + 1) (setWindow tr c (List.replicate (k + 1) now))
        (setWindow_same ..) (by omega)]
      congr 1
      omega

/-- Admission decision when the caller's *pruned* window is `k < limit` copies
of the current instant: allowed, with `remaining = limit - (k + 1)`. -/
theorem backend_check_prune_replicate_allowed {limit : Nat} {window : Int}
    {tr : Tracker} {c : String} {now : Int} {k : Nat}
    (hp : pruneWindow window now (tr c) = List.replicate k now) (hk : k < limit) :
    (Backend.check_rate_limit limit window tr c now).map Prod.fst
      = some (true, (limit : Int) - ((k : Int) + 1)) := by
  simp only [Backend.check_rate_limit, hp, List.length_replicate]
  rw [if_neg (by omega)]
  have hlen : (((List.replicate k now ++ [now]).length : Nat) : Int) = (k : Int) + 1 := by
    push_cast [List.length_append, List.length_replicate, List.length_singleton]
    ring
  simp only [Option.map_some', hlen]

/-- Admission decision when the caller's pruned window is `limit ≤ k` copies
of the current instant (`k ≥ 1`): rejected, with `time_until_reset = window`. -/
theorem backend_check_prune_replicate_rejected {limit : Nat} {window : Int}
    {tr : Tracker} {c : String} {now : Int} {k : Nat}
    (hp : pruneWindow window now (tr c) = List.replicate k now)
    (hk : limit ≤ k) (hk1 : 1 ≤ k) :
    (Backend.check_rate_limit limit window tr c now).map Prod.fst
      = some (false, window) := by
  simp only [Backend.check_rate_limit, hp, List.length_replicate]
  rw [if_pos hk, List.min?_replicate_of_pos (min_self now) (by omega)]
  simp only [Option.map_some']
  congr 2
  ring

/-- `backend_check_prune_replicate_allowed` for an unpruned window of copies
of `now`, which the prune keeps whole when the window duration is positive. -/
theorem backend_check_replicate_allowed {limit : Nat} {window : Int}
    {tr : Tracker} {c : String} {now : Int} {k : Nat} (hw : 0 < window)
    (h : tr c = List.replicate k now) (hk : k < limit) :
    (Backend.check_rate_limit limit window tr c now).map Prod.fst
      = some (true, (limit : Int) - ((k : Int) + 1)) :=
  backend_check_prune_replicate_allowed
    (by rw [h, pruneWindow_replicate_self hw]) hk

/-- `backend_check_prune_replicate_rejected` for an unpruned window of copies
of `now`. -/
theorem backend_check_replicate_rejected {limit : Nat} {window : Int}
    {tr : Tracker} {c : String} {now : Int} {k : Nat} (hw : 0 < window)
    (h : tr c = List.replicate k now) (hk : limit ≤ k) (hk1 : 1 ≤ k) :
    (Backend.check_rate_limit limit window tr c now).map Prod.fst
      = some (false, window) :=
  backend_check_prune_replicate_rejected
    (by rw [h, pruneWindow_replicate_self hw]) hk hk1

/-- Core of the fixed-clock admission sequence: from the empty tracker, the
`(k+1)`-st call is admitted with `remaining = limit - (k+1)` while `k < limit`,
and the `(limit+1)`-st call is rejected. -/
theorem backend_admit_seq_from_empty (limit : Nat) (window : Int) (c : String)
    (now : Int) (hl : 1 ≤ limit) (hw : 0 < window) :
    (∀ k : Nat, k < limit →
      (Backend.check_rate_limit limit window
          (runState limit window (List.replicate k (Op.admitCall c now)) emptyTracker)
          c now).map Prod.fst
        = some (true, (limit : Int) - ((k : Int) + 1))) ∧
    (Backend.check_rate_limit limit window
        (runState limit window (List.replicate limit (Op.admitCall c now)) emptyTracker)
        c now).map Prod.fst
      = some (false, window) := by
  have hstate : ∀ n : Nat,
      runState limit window (List.replicate n (Op.admitCall c now)) emptyTracker c
        = List.replicate (min n limit) now := by
    intro n
    simpa using
      runState_replicate_admits limit window c now hw n 0 emptyTracker rfl (by omega)
  constructor
  · intro k hk
    have h : runState limit window (List.replicate k (Op.admitCall c now)) emptyTracker c
        = List.replicate k now := by
      rw [hstate k]
      congr 1
      omega
    exact backend_check_replicate_allowed hw h hk
  · have h : runState limit window (List.replicate limit (Op.admitCall c now)) emptyTracker c
        = List.replicate limit now := by
      rw [hstate limit]
      congr 1
      omega
    exact backend_check_replicate_rejected hw h le_rfl hl

/-- C1: for every client and every fixed clock value, a sequence of
`check_rate_limit` calls starting from the empty tracker admits calls
`1..LIMIT` — with the returned `remaining` counting down from `LIMIT - 1`
to `0` — and rejects call `LIMIT + 1`, for any `LIMIT ≥ 1` (and positive
window duration). -/
theorem c1_fixed_clock_admit_sequence (limit : Nat) (window : Int) (c : String)
    (now : Int) (hl : 1 ≤ limit) (hw : 0 < window) :
    (∀ k : Nat, k < limit →
      (Backend.check_rate_limit limit window
          (runState limit window (List.replicate k (Op.admitCall c now)) emptyTracker)
          c now).map Prod.fst
        = some (true, (limit : Int) - ((k : Int) + 1))) ∧
    (Backend.check_rate_limit limit window
        (runState limit window (List.replicate limit (Op.admitCall c now)) emptyTracker)
        c now).map Prod.fst
      = some (false, window) :=
  backend_admit_seq_from_empty limit window c now hl hw

/-- Witness for C1 at the source constants: `LIMIT = 10`, `WINDOW = 3600`,
client `"X"`, clock `0`; the 4th call is admitted with `remaining = 6` and the
11th call is rejected with `time_until_reset = 3600`. -/
theorem c1_fixed_clock_admit_sequence_witness :
    (Backend.check_rate_limit RATE_LIMIT RATE_LIMIT_WINDOW
        (runState RATE_LIMIT RATE_LIMIT_WINDOW (List.replicate 3 (Op.admitCall "X" 0))
          emptyTracker) "X" 0).map Prod.fst
      = some (true, 6) ∧
    (Backend.check_rate_limit RATE_LIMIT RATE_LIMIT_WINDOW
        (runState RATE_LIMIT RATE_LIMIT_WINDOW (List.replicate 10 (Op.admitCall "X" 0))
          emptyTracker) "X" 0).map Prod.fst
      = some (false, 3600) :=
  ⟨(c1_fixed_clock_admit_sequence RATE_LIMIT RATE_LIMIT_WINDOW "X" 0 (by decide)
      (by decide)).1 3 (by decide),
   (c1_fixed_clock_admit_sequence RATE_LIMIT RATE_LIMIT_WINDOW "X" 0 (by decide)
      (by decide)).2⟩

/-- A window of requests all issued at `now` is pruned away entirely once the
clock reads `now + window`: the age is *exactly* the window duration, the
strict `<` retention test fails. -/
theorem pruneWindow_replicate_expired (window : Int) (now : Int) (k : Nat) :
    pruneWindow window (now + window) (List.replicate k now) = [] := by
  apply List.filter_eq_nil_iff.mpr
  intro a ha
  have := List.eq_of_mem_replicate ha
  subst this
  simp only [decide_eq_true_eq]
  omega

/-- Iterating `admit c now` at least once on a tracker whose `c`-window is
entirely stale at `now` behaves exactly like starting from an empty window. -/
theorem runState_replicate_admits_of_prune_empty (limit : Nat) (window : Int)
    (c : String) (now : Int) (hw : 0 < window) (hl : 1 ≤ limit) (tr : Tracker)
    (hempty : pruneWindow window now (tr c) = []) (n : Nat) (hn : 1 ≤ n) :
    runState limit window (List.replicate n (Op.admitCall c now)) tr c
      = List.replicate (min n limit) now := by
  obtain ⟨m, rfl⟩ : ∃ m, n = m + 1 := ⟨n - 1, by omega⟩
  rw [List.replicate_succ]
  simp only [runState, stepState, hempty, List.length_nil]
  rw [if_neg (by omega), List.nil_append]
  have h1 : ([now] : List Int) = List.replicate 1 now := rfl
  rw [h1, runState_replicate_admits limit window c now hw m 1 _ (setWindow_same ..) hl]
  congr 1
  omega

/-- C2: pruning uses the strict less-than retention test in both `admit` and
`status` — a timestamp whose age is exactly `window` is removed from the
stored window by either call — and, from an empty tracker, after `LIMIT`
admitted requests at `t0` and a clock advance of exactly `window`, the client
is admitted again on calls 1..LIMIT (`k < limit` below counts prior calls at
the new instant). -/
theorem c2_strict_boundary_prune_and_reset (limit : Nat) (window : Int)
    (tr : Tracker) (c : String) (now t : Int) (hw : 0 < window)
    (hb : now - t = window) :
    (∀ r tr2, Backend.check_rate_limit limit window tr c now = some (r, tr2) →
      t ∉ tr2 c) ∧
    t ∉ (Backend.rate_limit_status limit window tr c now).2 c ∧
    (1 ≤ limit → ∀ t0 : Int, ∀ k : Nat, k < limit →
      (Backend.check_rate_limit limit window
          (runState limit window (List.replicate k (Op.admitCall c (t0 + window)))
            (runState limit window (List.replicate limit (Op.admitCall c t0))
              emptyTracker))
          c (t0 + window)).map Prod.fst
        = some (true, (limit : Int) - ((k : Int) + 1))) := by
  have hnotmem : ∀ l : ClientWindow, t ∉ pruneWindow window now l := by
    intro l hmem
    have := (mem_pruneWindow.mp hmem).2
    omega
  refine ⟨?_, ?_, ?_⟩
  · intro r tr2 h
    rw [backend_check_tracker_eq_step h]
    simp only [stepState]
    by_cases hcase : limit ≤ (pruneWindow window now (tr c)).length
    · rw [if_pos hcase, setWindow_same]
      exact hnotmem _
    · rw [if_neg hcase, setWindow_same]
      intro hmem
      rcases List.mem_append.mp hmem with h1 | h1
      · exact hnotmem _ h1
      · have : t = now := by simpa using h1
        omega
  · rw [status_tracker_eq_step]
    simp only [stepState, setWindow_same]
    exact hnotmem _
  · intro hl t0 k hk
    have hstate1 : runState limit window (List.replicate limit (Op.admitCall c t0))
        emptyTracker c = List.replicate limit t0 := by
      have := runState_replicate_admits limit window c t0 hw limit 0 emptyTracker
        rfl (by omega)
      simpa using this
    have hstale : pruneWindow window (t0 + window)
        (runState limit window (List.replicate limit (Op.admitCall c t0))
          emptyTracker c) = [] := by
      rw [hstate1]
      exact pruneWindow_replicate_expired window t0 limit
    rcases Nat.eq_zero_or_pos k with hk0 | hkpos
    · subst hk0
      simp only [List.replicate, runState]
      exact @backend_check_prune_replicate_allowed limit window _ c (t0 + window) 0 (by simpa using hstale) hk
    · have hstate2 := runState_replicate_admits_of_prune_empty limit window c
        (t0 + window) hw hl _ hstale k hkpos
      have hk2 : min k limit = k := by omega
      rw [hk2] at hstate2
      exact backend_check_replicate_allowed hw hstate2 hk

/-- Witness for C2 at the source constants: a timestamp of age exactly 3600 is
dropped by both calls, and after 10 admissions at `t0 = 5` the first call at
`t0 + 3600` is admitted with `remaining = 9`. -/
theorem c2_strict_boundary_prune_and_reset_witness :
    (∀ r tr2, Backend.check_rate_limit RATE_LIMIT RATE_LIMIT_WINDOW
        (setWindow emptyTracker "X" [5]) "X" 3605 = some (r, tr2) →
      (5 : Int) ∉ tr2 "X") ∧
    (5 : Int) ∉ (Backend.rate_limit_status RATE_LIMIT RATE_LIMIT_WINDOW
        (setWindow emptyTracker "X" [5]) "X" 3605).2 "X" ∧
    (1 ≤ RATE_LIMIT → ∀ t0 : Int, ∀ k : Nat, k < RATE_LIMIT →
      (Backend.check_rate_limit RATE_LIMIT RATE_LIMIT_WINDOW
          (runState RATE_LIMIT RATE_LIMIT_WINDOW
            (List.replicate k (Op.admitCall "X" (t0 + RATE_LIMIT_WINDOW)))
            (runState RATE_LIMIT RATE_LIMIT_WINDOW
              (List.replicate RATE_LIMIT (Op.admitCall "X" t0)) emptyTracker))
          "X" (t0 + RATE_LIMIT_WINDOW)).map Prod.fst
        = some (true, (RATE_LIMIT : Int) - ((k : Int) + 1))) :=
  c2_strict_boundary_prune_and_reset RATE_LIMIT RATE_LIMIT_WINDOW
    (setWindow emptyTracker "X" [5]) "X" 3605 5 (by decide) (by decide)

/-- Filtering out at least one element shortens a list strictly. -/
theorem length_filter_lt_of_mem_not {p : Int → Bool} {l : List Int} {x : Int}
    (hx : x ∈ l) (hpx : ¬ p x = true) : (l.filter p).length < l.length := by
  rcases Nat.lt_or_ge (l.filter p).length l.length with h | h
  · exact h
  · have heq : (l.filter p).length = l.length :=
      le_antisymm (List.length_filter_le p l) h
    exact absurd (List.filter_length_eq_length.mp heq x hx) hpx

/-- C3: on every rejection the backend `check_rate_limit` returns
`retry_after = window - (now - oldest)` where `oldest` is the minimum
surviving timestamp, this value is never negative, and a further call for the
same client once the clock has advanced by exactly that amount is admitted.
The hypothesis `(tr c).length ≤ limit` is the reachable-state window bound
(established from the empty state by the C4 theorem); `hrej` is the rejection
condition of the source (`len(request_tracker[client_id]) >= RATE_LIMIT`
after pruning). -/
theorem c3_retry_after_formula_and_success (limit : Nat) (window : Int)
    (tr : Tracker) (c : String) (now : Int)
    (hlen : (tr c).length ≤ limit)
    (hrej : limit ≤ (pruneWindow window now (tr c)).length)
    (hl : 1 ≤ limit) :
    ∃ oldest : Int,
      (pruneWindow window now (tr c)).min? = some oldest ∧
      Backend.check_rate_limit limit window tr c now
        = some ((false, window - (now - oldest)),
            setWindow tr c (pruneWindow window now (tr c))) ∧
      0 ≤ window - (now - oldest) ∧
      (Backend.check_rate_limit limit window
          (setWindow tr c (pruneWindow window now (tr c))) c
          (now + (window - (now - oldest)))).map (fun r => r.1.1)
        = some true := by
  have hne : pruneWindow window now (tr c) ≠ [] := by
    intro he
    rw [he] at hrej
    simp only [List.length_nil, Nat.le_zero] at hrej
    omega
  obtain ⟨oldest, hm⟩ := int_min?_isSome hne
  have hmem : oldest ∈ pruneWindow window now (tr c) :=
    (int_min?_eq_some_iff.mp hm).1
  have hage : now - oldest < window := (mem_pruneWindow.mp hmem).2
  refine ⟨oldest, hm, ?_, by omega, ?_⟩
  · simp only [Backend.check_rate_limit]
    rw [if_pos hrej, hm]
    show some ((false, oldest + window - now),
        setWindow tr c (pruneWindow window now (tr c))) = _
    have : oldest + window - now = window - (now - oldest) := by ring
    rw [this]
  · simp only [Backend.check_rate_limit, setWindow_same]
    have hlt : (pruneWindow window (now + (window - (now - oldest)))
        (pruneWindow window now (tr c))).length < limit := by
      have hdrop : ¬ (decide ((now + (window - (now - oldest))) - oldest < window)
          = true) := by
        simp only [decide_eq_true_eq]
        omega
      calc (pruneWindow window (now + (window - (now - oldest)))
              (pruneWindow window now (tr c))).length
          < (pruneWindow window now (tr c)).length :=
            length_filter_lt_of_mem_not hmem hdrop
        _ ≤ (tr c).length := length_pruneWindow_le ..
        _ ≤ limit := hlen
    rw [if_neg (by omega)]
    rfl

/-- Witness for C3 at the source constants: client `"X"` with ten requests at
times `0, 1, ..., 9` is rejected at `now = 10`; the returned retry delay is
`3600 - (10 - 0) = 3590 ≥ 0` and the follow-up call at `10 + 3590` is
admitted. -/
theorem c3_retry_after_formula_and_success_witness :
    ∃ oldest : Int,
      (pruneWindow RATE_LIMIT_WINDOW 10
          (setWindow emptyTracker "X" [0, 1, 2, 3, 4, 5, 6, 7, 8, 9] "X")).min?
        = some oldest ∧
      Backend.check_rate_limit RATE_LIMIT RATE_LIMIT_WINDOW
          (setWindow emptyTracker "X" [0, 1, 2, 3, 4, 5, 6, 7, 8, 9]) "X" 10
        = some ((false, RATE_LIMIT_WINDOW - (10 - oldest)),
            setWindow (setWindow emptyTracker "X" [0, 1, 2, 3, 4, 5, 6, 7, 8, 9]) "X"
              (pruneWindow RATE_LIMIT_WINDOW 10
                (setWindow emptyTracker "X" [0, 1, 2, 3, 4, 5, 6, 7, 8, 9] "X"))) ∧
      0 ≤ RATE_LIMIT_WINDOW - (10 - oldest) ∧
      (Backend.check_rate_limit RATE_LIMIT RATE_LIMIT_WINDOW
          (setWindow (setWindow emptyTracker "X" [0, 1, 2, 3, 4, 5, 6, 7, 8, 9]) "X"
            (pruneWindow RATE_LIMIT_WINDOW 10
              (setWindow emptyTracker "X" [0, 1, 2, 3, 4, 5, 6, 7, 8, 9] "X"))) "X"
          (10 + (RATE_LIMIT_WINDOW - (10 - oldest)))).map (fun r => r.1.1)
        = some true :=
  c3_retry_after_formula_and_success RATE_LIMIT RATE_LIMIT_WINDOW
    (setWindow emptyTracker "X" [0, 1, 2, 3, 4, 5, 6, 7, 8, 9]) "X" 10
    (by decide) (by decide) (by decide)

/-- One limiter call preserves the per-client window bound `limit`. -/
theorem stepState_length_le {limit : Nat} {window : Int} (tr : Tracker) (op : Op)
    (h : ∀ c, (tr c).length ≤ limit) :
    ∀ c, (stepState limit window tr op c).length ≤ limit := by
  intro c
  cases op with
  | admitCall c2 now =>
    simp only [stepState]
    by_cases hb : limit ≤ (pruneWindow window now (tr c2)).length
    · rw [if_pos hb]
      by_cases hc : c = c2
      · subst hc
        rw [setWindow_same]
        exact le_trans (length_pruneWindow_le ..) (h c)
      · rw [setWindow_other _ _ _ _ hc]
        exact h c
    · rw [if_neg hb]
      by_cases hc : c = c2
      · subst hc
        rw [setWindow_same, List.length_append, List.length_singleton]
        omega
      · rw [setWindow_other _ _ _ _ hc]
        exact h c
  | status c2 now =>
    simp only [stepState]
    by_cases hc : c = c2
    · subst hc
      rw [setWindow_same]
      exact le_trans (length_pruneWindow_le ..) (h c)
    · rw [setWindow_other _ _ _ _ hc]
      exact h c

/-- C4: starting from the empty tracker, after any sequence of admit
(`check_rate_limit`) and status (`rate_limit_status`) calls — whose state
transitions are `stepState`, see `backend_check_tracker_eq_step`,
`api_check_tracker_eq_step` and `status_tracker_eq_step` — every client's
stored window holds at most `limit` timestamps.  Since every intermediate
state is the final state of a prefix, the bound holds at every point. -/
theorem c4_window_holds_at_most_limit (limit : Nat) (window : Int) (L : List Op) :
    ∀ c, (runState limit window L emptyTracker c).length ≤ limit := by
  suffices h : ∀ tr : Tracker, (∀ c, (tr c).length ≤ limit) →
      ∀ c, (runState limit window L tr c).length ≤ limit by
    exact h emptyTracker (fun c => by simp [emptyTracker])
  induction L with
  | nil =>
    intro tr h c
    exact h c
  | cons op rest ih =>
    intro tr h c
    exact ih _ (stepState_length_le tr op h) c

theorem WindowEq.mono {window T T2 : Int} {tr tr2 : Tracker} (hT : T ≤ T2)
    (h : WindowEq window T tr tr2) : WindowEq window T2 tr tr2 := by
  intro c
  rw [← pruneWindow_pruneWindow (tr c) hT, ← pruneWindow_pruneWindow (tr2 c) hT, h c]

theorem WindowEq.step {limit : Nat} {window T : Int} {tr tr2 : Tracker}
    (h : WindowEq window T tr tr2) (op : Op) (hop : op.time = T) :
    WindowEq window T (stepState limit window tr op) (stepState limit window tr2 op) := by
  cases op with
  | admitCall c2 now =>
    simp only [Op.time] at hop
    subst hop
    intro c
    simp only [stepState, ← h c2]
    by_cases hb : limit ≤ (pruneWindow window now (tr c2)).length
    · rw [if_pos hb, if_pos hb]
      by_cases hc : c = c2
      · subst hc
        rw [setWindow_same, setWindow_same]
      · rw [setWindow_other _ _ _ _ hc, setWindow_other _ _ _ _ hc]
        exact h c
    · rw [if_neg hb, if_neg hb]
      by_cases hc : c = c2
      · subst hc
        rw [setWindow_same, setWindow_same]
      · rw [setWindow_other _ _ _ _ hc, setWindow_other _ _ _ _ hc]
        exact h c
  | status c2 now =>
    simp only [Op.time] at hop
    subst hop
    intro c
    simp only [stepState]
    by_cases hc : c = c2
    · subst hc
      rw [setWindow_same, setWindow_same, pruneWindow_idem, pruneWindow_idem]
      exact h c
    · rw [setWindow_other _ _ _ _ hc, setWindow_other _ _ _ _ hc]
      exact h c

/-- A `status` call at time `T` is invisible to any observation at time `T`
or later: it only prunes, and pruning is idempotent. -/
theorem WindowEq.status_step {limit : Nat} {window T : Int} (tr : Tracker)
    (c2 : String) :
    WindowEq window T (stepState limit window tr (Op.status c2 T)) tr := by
  intro c
  simp only [stepState]
  by_cases hc : c = c2
  · subst hc
    rw [setWindow_same, pruneWindow_idem]
  · rw [setWindow_other _ _ _ _ hc]

/-- Simulation: over any call sequence with non-decreasing clock values,
dropping all `status` calls leaves every admission result unchanged, even
across observationally-equal start states. -/
theorem admitResults_eq_of_windowEq (limit : Nat) (window : Int) :
    ∀ (L : List Op) (T : Int) (tr tr2 : Tracker),
      timesFrom T L = true → WindowEq window T tr tr2 →
      admitResults limit window L tr
        = admitResults limit window (removeStatus L) tr2 := by
  intro L
  induction L with
  | nil =>
    intro T tr tr2 _ _
    rfl
  | cons op rest ih =>
    intro T tr tr2 htimes heq
    have htimes2 : (decide (T ≤ op.time) && timesFrom op.time rest) = true := htimes
    rw [Bool.and_eq_true] at htimes2
    have hT : T ≤ op.time := of_decide_eq_true htimes2.1
    have heq2 : WindowEq window op.time tr tr2 := heq.mono hT
    cases op with
    | admitCall c now =>
      have hstep : removeStatus (Op.admitCall c now :: rest)
          = Op.admitCall c now :: removeStatus rest := rfl
      rw [hstep]
      simp only [admitResults]
      refine congrArg₂ _ ?_ ?_
      · exact backend_check_fst_congr tr tr2 c now (heq2 c)
      · exact ih now _ _ htimes2.2 (heq2.step (Op.admitCall c now) rfl)
    | status c now =>
      have hstep : removeStatus (Op.status c now :: rest) = removeStatus rest := rfl
      rw [hstep]
      simp only [admitResults]
      exact ih now _ _ htimes2.2
        (fun c2 =>
          (@WindowEq.status_step limit window now tr c c2).trans (heq2 c2))

/-- C5: `rate_limit_status` never mutates admission state.  For any
interleaved sequence of admit and status calls whose clock values are
non-decreasing (what consecutive `datetime.now()` reads guarantee), deleting
every status call leaves the result of every admit call — allowed flag,
remaining count, and retry value alike — unchanged. -/
theorem c5_status_never_mutates_admissions (limit : Nat) (window T : Int)
    (L : List Op) (h : timesFrom T L = true) :
    admitResults limit window L emptyTracker
      = admitResults limit window (removeStatus L) emptyTracker :=
  admitResults_eq_of_windowEq limit window L T emptyTracker emptyTracker h
    (fun _ => rfl)

/-- Witness for C5: interleaving three status calls (two for `"X"`, one for
`"Y"`) among three admit calls for `"X"` changes none of the admit results. -/
theorem c5_status_never_mutates_admissions_witness :
    admitResults RATE_LIMIT RATE_LIMIT_WINDOW
        [Op.admitCall "X" 0, Op.status "X" 10, Op.status "Y" 20, Op.admitCall "X" 30,
         Op.status "X" 4000, Op.admitCall "X" 4000] emptyTracker
      = admitResults RATE_LIMIT RATE_LIMIT_WINDOW
          (removeStatus
            [Op.admitCall "X" 0, Op.status "X" 10, Op.status "Y" 20, Op.admitCall "X" 30,
             Op.status "X" 4000, Op.admitCall "X" 4000]) emptyTracker :=
  c5_status_never_mutates_admissions RATE_LIMIT RATE_LIMIT_WINDOW 0
    [Op.admitCall "X" 0, Op.status "X" 10, Op.status "Y" 20, Op.admitCall "X" 30,
     Op.status "X" 4000, Op.admitCall "X" 4000] (by decide)

/-- C6: distinct client identifiers have fully independent quotas.  An admit
call for client `A` leaves every other client `B`'s stored window unchanged,
and therefore changes no admission outcome (allowed flag, remaining, or
retry value) for `B` at any later clock value. -/
theorem c6_distinct_clients_independent (limit : Nat) (window : Int)
    (tr : Tracker) (A B : String) (now : Int) (hne : B ≠ A) :
    ∀ (r : Bool × Int) (trA : Tracker),
      Backend.check_rate_limit limit window tr A now = some (r, trA) →
      trA B = tr B ∧
      ∀ now2 : Int,
        (Backend.check_rate_limit limit window trA B now2).map Prod.fst
          = (Backend.check_rate_limit limit window tr B now2).map Prod.fst := by
  intro r trA h
  have hstep := backend_check_tracker_eq_step h
  have hB : trA B = tr B := by
    rw [hstep]
    simp only [stepState]
    split <;> exact setWindow_other _ _ _ _ hne
  exact ⟨hB, fun now2 => backend_check_fst_congr trA tr B now2 (by rw [hB])⟩

/-- Witness for C6: the admit call for `"A"` on the empty tracker (admitted
with `remaining = 9`, leaving the tracker written below) does not change
`"B"`'s window or the decision for `"B"` at `now = 99`. -/
theorem c6_distinct_clients_independent_witness :
    (setWindow (setWindow emptyTracker "A"
        (pruneWindow RATE_LIMIT_WINDOW 0 (emptyTracker "A"))) "A"
        (pruneWindow RATE_LIMIT_WINDOW 0 (emptyTracker "A") ++ [0])) "B"
      = emptyTracker "B" ∧
    (Backend.check_rate_limit RATE_LIMIT RATE_LIMIT_WINDOW
        (setWindow (setWindow emptyTracker "A"
          (pruneWindow RATE_LIMIT_WINDOW 0 (emptyTracker "A"))) "A"
          (pruneWindow RATE_LIMIT_WINDOW 0 (emptyTracker "A") ++ [0]))
        "B" 99).map Prod.fst
      = (Backend.check_rate_limit RATE_LIMIT RATE_LIMIT_WINDOW emptyTracker
          "B" 99).map Prod.fst :=
  ⟨(c6_distinct_clients_independent RATE_LIMIT RATE_LIMIT_WINDOW emptyTracker
      "A" "B" 0 (by decide) ((true, 9))
      (setWindow (setWindow emptyTracker "A"
        (pruneWindow RATE_LIMIT_WINDOW 0 (emptyTracker "A"))) "A"
        (pruneWindow RATE_LIMIT_WINDOW 0 (emptyTracker "A") ++ [0])) rfl).1,
   (c6_distinct_clients_independent RATE_LIMIT RATE_LIMIT_WINDOW emptyTracker
      "A" "B" 0 (by decide) ((true, 9))
      (setWindow (setWindow emptyTracker "A"
        (pruneWindow RATE_LIMIT_WINDOW 0 (emptyTracker "A"))) "A"
        (pruneWindow RATE_LIMIT_WINDOW 0 (emptyTracker "A") ++ [0])) rfl).2 99⟩

/-- C7: the empty string is a valid, ordinary quota bucket.  Admissions keyed
by `""` accumulate in one shared window — whoever supplies `""`, calls
`1..LIMIT` are admitted and call `LIMIT+1` is rejected — and the limiter never
parses or validates the identifier: its decision depends on the identifier
only through that identifier's stored window. -/
theorem c7_empty_string_single_bucket (limit : Nat) (window : Int) (now : Int)
    (hl : 1 ≤ limit) (hw : 0 < window) :
    (∀ k : Nat, k < limit →
      (Backend.check_rate_limit limit window
          (runState limit window (List.replicate k (Op.admitCall "" now)) emptyTracker)
          "" now).map Prod.fst
        = some (true, (limit : Int) - ((k : Int) + 1))) ∧
    (Backend.check_rate_limit limit window
        (runState limit window (List.replicate limit (Op.admitCall "" now)) emptyTracker)
        "" now).map Prod.fst
      = some (false, window) ∧
    (∀ (tr tr2 : Tracker) (c : String) (t : Int), tr c = tr2 c →
      (Backend.check_rate_limit limit window tr c t).map Prod.fst
        = (Backend.check_rate_limit limit window tr2 c t).map Prod.fst) := by
  obtain ⟨h1, h2⟩ := backend_admit_seq_from_empty limit window "" now hl hw
  exact ⟨h1, h2, fun tr tr2 c t h =>
    backend_check_fst_congr tr tr2 c t (by rw [pruneWindow, pruneWindow, h])⟩

/-- Witness for C7 at the source constants, clock `0`: the first call keyed
`""` is admitted with `remaining = 9`, the 11th is rejected. -/
theorem c7_empty_string_single_bucket_witness :
    (Backend.check_rate_limit RATE_LIMIT RATE_LIMIT_WINDOW
        (runState RATE_LIMIT RATE_LIMIT_WINDOW [] emptyTracker) "" 0).map Prod.fst
      = some (true, 9) ∧
    (Backend.check_rate_limit RATE_LIMIT RATE_LIMIT_WINDOW
        (runState RATE_LIMIT RATE_LIMIT_WINDOW
          (List.replicate 10 (Op.admitCall "" 0)) emptyTracker) "" 0).map Prod.fst
      = some (false, 3600) :=
  ⟨by
    have h := (c7_empty_string_single_bucket RATE_LIMIT RATE_LIMIT_WINDOW 0
      (by decide) (by decide)).1 0 (by decide)
    simpa using h,
   (c7_empty_string_single_bucket RATE_LIMIT RATE_LIMIT_WINDOW 0
      (by decide) (by decide)).2.1⟩

/-- Single-call equivalence of the two variants: with a positive limit the
backend call returns `some` of the api call's boolean (plus a value) and
leaves the identical tracker. -/
theorem backend_api_check_agree (limit : Nat) (window : Int) (tr : Tracker)
    (c : String) (now : Int) (hl : 1 ≤ limit) :
    ∃ v : Int,
      Backend.check_rate_limit limit window tr c now
        = some (((Api.check_rate_limit limit window tr c now).1, v),
            (Api.check_rate_limit limit window tr c now).2) := by
  simp only [Backend.check_rate_limit, Api.check_rate_limit]
  by_cases hb : limit ≤ (pruneWindow window now (tr c)).length
  · have hne : pruneWindow window now (tr c) ≠ [] := by
      intro he
      rw [he] at hb
      simp only [List.length_nil, Nat.le_zero] at hb
      omega
    obtain ⟨m, hm⟩ := int_min?_isSome hne
    rw [if_pos hb, if_pos hb, hm]
    exact ⟨m + window - now, rfl⟩
  · rw [if_neg hb, if_neg hb]
    exact ⟨_, rfl⟩

/-- C8: the two `check_rate_limit` variants are equivalent on admission
decisions.  For every client/clock call sequence (and positive limit, which
both sources fix at 10), the backend run's allowed/rejected outcomes are
exactly the api run's booleans, and the two runs leave identical trackers. -/
theorem c8_backend_api_equivalent (limit : Nat) (window : Int)
    (calls : List (String × Int)) (tr : Tracker) (hl : 1 ≤ limit) :
    (backendRunChecks limit window calls tr).1.map (Option.map Prod.fst)
      = (apiRunChecks limit window calls tr).1.map some ∧
    (backendRunChecks limit window calls tr).2
      = (apiRunChecks limit window calls tr).2 := by
  induction calls generalizing tr with
  | nil => exact ⟨rfl, rfl⟩
  | cons call rest ih =>
    obtain ⟨c, now⟩ := call
    obtain ⟨v, hv⟩ := backend_api_check_agree limit window tr c now hl
    simp only [backendRunChecks, apiRunChecks, hv]
    obtain ⟨ih1, ih2⟩ := ih (Api.check_rate_limit limit window tr c now).2
    exact ⟨by simp [ih1], ih2⟩

/-- Witness for C8: a concrete 12-call sequence for two clients at the source
constants. -/
theorem c8_backend_api_equivalent_witness :
    (backendRunChecks RATE_LIMIT RATE_LIMIT_WINDOW
        (List.replicate 11 ("X", (0 : Int)) ++ [("Y", 5)]) emptyTracker).1.map
        (Option.map Prod.fst)
      = (apiRunChecks RATE_LIMIT RATE_LIMIT_WINDOW
          (List.replicate 11 ("X", (0 : Int)) ++ [("Y", 5)]) emptyTracker).1.map
          some ∧
    (backendRunChecks RATE_LIMIT RATE_LIMIT_WINDOW
        (List.replicate 11 ("X", (0 : Int)) ++ [("Y", 5)]) emptyTracker).2
      = (apiRunChecks RATE_LIMIT RATE_LIMIT_WINDOW
          (List.replicate 11 ("X", (0 : Int)) ++ [("Y", 5)]) emptyTracker).2 :=
  c8_backend_api_equivalent RATE_LIMIT RATE_LIMIT_WINDOW
    (List.replicate 11 ("X", (0 : Int)) ++ [("Y", 5)]) emptyTracker (by decide)

theorem sorted_pruneWindow {window now : Int} {l : ClientWindow}
    (h : l.Sorted (· ≤ ·)) : (pruneWindow window now l).Sorted (· ≤ ·) :=
  List.Pairwise.sublist (List.filter_sublist l) h

/-- One call at time `op.time ≥ T` keeps all windows sorted, with the new
bound `op.time`: pruning preserves order and `admit` appends the largest
timestamp at the end. -/
theorem stepState_sortedBelow {limit : Nat} {window : Int} {tr : Tracker}
    {T : Int} (op : Op) (h : SortedBelow tr T) (hT : T ≤ op.time) :
    SortedBelow (stepState limit window tr op) op.time := by
  cases op with
  | admitCall c2 now =>
    simp only [Op.time] at hT ⊢
    intro c
    simp only [stepState]
    by_cases hb : limit ≤ (pruneWindow window now (tr c2)).length
    · rw [if_pos hb]
      by_cases hc : c = c2
      · subst hc
        rw [setWindow_same]
        exact ⟨sorted_pruneWindow (h c).1,
          fun t ht => le_trans ((h c).2 t (mem_pruneWindow.mp ht).1) hT⟩
      · rw [setWindow_other _ _ _ _ hc]
        exact ⟨(h c).1, fun t ht => le_trans ((h c).2 t ht) hT⟩
    · rw [if_neg hb]
      by_cases hc : c = c2
      · subst hc
        rw [setWindow_same]
        constructor
        · rw [List.Sorted, List.pairwise_append]
          refine ⟨sorted_pruneWindow (h c).1, List.pairwise_singleton _ _, ?_⟩
          intro a ha b hb2
          have hb3 : b = now := by simpa using hb2
          subst hb3
          exact le_trans ((h c).2 a (mem_pruneWindow.mp ha).1) hT
        · intro t ht
          rcases List.mem_append.mp ht with h1 | h1
          · exact le_trans ((h c).2 t (mem_pruneWindow.mp h1).1) hT
          · exact le_of_eq (by simpa using h1)
      · rw [setWindow_other _ _ _ _ hc]
        exact ⟨(h c).1, fun t ht => le_trans ((h c).2 t ht) hT⟩
  | status c2 now =>
    simp only [Op.time] at hT ⊢
    intro c
    simp only [stepState]
    by_cases hc : c = c2
    · subst hc
      rw [setWindow_same]
      exact ⟨sorted_pruneWindow (h c).1,
        fun t ht => le_trans ((h c).2 t (mem_pruneWindow.mp ht).1) hT⟩
    · rw [setWindow_other _ _ _ _ hc]
      exact ⟨(h c).1, fun t ht => le_trans ((h c).2 t ht) hT⟩

/-- Over any monotone-clock call sequence, `SortedBelow` is preserved (with
some later bound). -/
theorem runState_sortedBelow (limit : Nat) (window : Int) :
    ∀ (L : List Op) (T : Int) (tr : Tracker), timesFrom T L = true →
      SortedBelow tr T →
      ∃ T2, T ≤ T2 ∧ SortedBelow (runState limit window L tr) T2 := by
  intro L
  induction L with
  | nil =>
    intro T tr _ h
    exact ⟨T, le_rfl, h⟩
  | cons op rest ih =>
    intro T tr htimes h
    have htimes2 : (decide (T ≤ op.time) && timesFrom op.time rest) = true := htimes
    rw [Bool.and_eq_true] at htimes2
    have hT : T ≤ op.time := of_decide_eq_true htimes2.1
    obtain ⟨T2, hT2, hsorted⟩ :=
      ih op.time _ htimes2.2 (stepState_sortedBelow op h hT)
    exact ⟨T2, le_trans hT hT2, hsorted⟩

/-- C9: when the clock values across successive calls are non-decreasing,
every client window reachable from the empty tracker stays sorted in
ascending order, so its first element equals its minimum; consequently the
api variant's retry formula read from `request_tracker[client_id][0]`
coincides with the backend's read from `min(request_tracker[client_id])`. -/
theorem c9_sorted_windows_head_eq_min (limit : Nat) (window T : Int)
    (L : List Op) (h : timesFrom T L = true) :
    ∀ c, (runState limit window L emptyTracker c).Sorted (· ≤ ·) ∧
      (runState limit window L emptyTracker c).head?
        = (runState limit window L emptyTracker c).min? ∧
      ∀ now2 : Int,
        Api.retry_of_head window (runState limit window L emptyTracker) c now2
          = retry_of_min window (runState limit window L emptyTracker) c now2 := by
  obtain ⟨T2, _, hs⟩ := runState_sortedBelow limit window L T emptyTracker h
    (fun c => ⟨List.sorted_nil, fun t ht => absurd ht (List.not_mem_nil t)⟩)
  intro c
  have hsorted := (hs c).1
  have hhead := sorted_head?_eq_min? hsorted
  refine ⟨hsorted, hhead, fun now2 => ?_⟩
  simp only [Api.retry_of_head, retry_of_min, hhead]
  cases (runState limit window L emptyTracker c).min? with
  | none => rfl
  | some m =>
    simp only [Option.map_some']
    congr 1
    ring

/-- Witness for C9: a concrete monotone four-call trace; client `"X"`'s final
window is sorted and its head-based and min-based retry readings agree at
`now = 20`. -/
theorem c9_sorted_windows_head_eq_min_witness :
    (runState RATE_LIMIT RATE_LIMIT_WINDOW
        [Op.admitCall "X" 0, Op.admitCall "X" 5, Op.status "X" 10, Op.admitCall "Y" 12]
        emptyTracker "X").Sorted (· ≤ ·) ∧
    (runState RATE_LIMIT RATE_LIMIT_WINDOW
        [Op.admitCall "X" 0, Op.admitCall "X" 5, Op.status "X" 10, Op.admitCall "Y" 12]
        emptyTracker "X").head?
      = (runState RATE_LIMIT RATE_LIMIT_WINDOW
          [Op.admitCall "X" 0, Op.admitCall "X" 5, Op.status "X" 10, Op.admitCall "Y" 12]
          emptyTracker "X").min? ∧
    Api.retry_of_head RATE_LIMIT_WINDOW
        (runState RATE_LIMIT RATE_LIMIT_WINDOW
          [Op.admitCall "X" 0, Op.admitCall "X" 5, Op.status "X" 10, Op.admitCall "Y" 12]
          emptyTracker) "X" 20
      = retry_of_min RATE_LIMIT_WINDOW
          (runState RATE_LIMIT RATE_LIMIT_WINDOW
            [Op.admitCall "X" 0, Op.admitCall "X" 5, Op.status "X" 10, Op.admitCall "Y" 12]
            emptyTracker) "X" 20 :=
  ⟨(c9_sorted_windows_head_eq_min RATE_LIMIT RATE_LIMIT_WINDOW 0
      [Op.admitCall "X" 0, Op.admitCall "X" 5, Op.status "X" 10, Op.admitCall "Y" 12]
      (by decide) "X").1,
   (c9_sorted_windows_head_eq_min RATE_LIMIT RATE_LIMIT_WINDOW 0
      [Op.admitCall "X" 0, Op.admitCall "X" 5, Op.status "X" 10, Op.admitCall "Y" 12]
      (by decide) "X").2.1,
   (c9_sorted_windows_head_eq_min RATE_LIMIT RATE_LIMIT_WINDOW 0
      [Op.admitCall "X" 0, Op.admitCall "X" 5, Op.status "X" 10, Op.admitCall "Y" 12]
      (by decide) "X").2.2 20⟩

/-- Taking the first 8 characters of a non-empty string is non-empty. -/
theorem string_take_eight_ne_empty {k : String} (h : k ≠ "") : k.take 8 ≠ "" := by
  intro he
  apply h
  have hdata : (k.take 8).data = ([] : List Char) := by rw [he]
  rw [String.take_eq] at hdata
  rcases List.take_eq_nil_iff.mp hdata with h8 | hnil
  · cases h8
  · cases k
    cases hnil
    rfl

/-- C10: the `rate_limit` decorator in `src/api/index.py` derives the client
identifier as the first 8 characters of the `X-API-Key` header, falling back
to the remote address when the header is absent or empty; two distinct keys
sharing an 8-character head share one quota bucket; an empty key reaches the
limiter as the (non-empty) remote address, never as the empty-string
bucket. -/
theorem c10_client_id_derivation (k k2 addr addr2 : String) :
    Api.client_id_of none addr = addr ∧
    Api.client_id_of (some "") addr = addr ∧
    (k ≠ "" → Api.client_id_of (some k) addr = k.take 8) ∧
    (k ≠ "" → k.take 8 = k2.take 8 →
      Api.client_id_of (some k) addr = Api.client_id_of (some k2) addr2) ∧
    (addr ≠ "" → Api.client_id_of (some "") addr ≠ "") := by
  have hsome : ∀ s : String, s ≠ "" →
      ∀ a : String, Api.client_id_of (some s) a = s.take 8 := by
    intro s hs a
    simp only [Api.client_id_of, Option.getD]
    rw [if_neg (string_take_eight_ne_empty hs)]
  refine ⟨rfl, rfl, fun hk => hsome k hk addr, ?_, fun ha => ?_⟩
  · intro hk htake
    have hk2 : k2 ≠ "" := by
      intro he
      subst he
      exact string_take_eight_ne_empty hk htake
    rw [hsome k hk addr, hsome k2 hk2 addr2, htake]
  · intro he
    exact ha he

/-- Witness for C10: keys `"abcdefghij"` and `"abcdefghXY"` share the bucket
`"abcdefgh"`; missing and empty headers fall back to the remote address. -/
theorem c10_client_id_derivation_witness :
    Api.client_id_of none "1.2.3.4" = "1.2.3.4" ∧
    Api.client_id_of (some "") "1.2.3.4" = "1.2.3.4" ∧
    Api.client_id_of (some "abcdefghij") "1.2.3.4" = "abcdefgh" ∧
    Api.client_id_of (some "abcdefghij") "1.2.3.4"
      = Api.client_id_of (some "abcdefghXY") "5.6.7.8" ∧
    Api.client_id_of (some "") "1.2.3.4" ≠ "" :=
  ⟨(c10_client_id_derivation "abcdefghij" "abcdefghXY" "1.2.3.4" "5.6.7.8").1,
   (c10_client_id_derivation "abcdefghij" "abcdefghXY" "1.2.3.4" "5.6.7.8").2.1,
   (c10_client_id_derivation "abcdefghij" "abcdefghXY" "1.2.3.4" "5.6.7.8").2.2.1
     (by decide),
   (c10_client_id_derivation "abcdefghij" "abcdefghXY" "1.2.3.4" "5.6.7.8").2.2.2.1
     (by decide) (by decide),
   (c10_client_id_derivation "abcdefghij" "abcdefghXY" "1.2.3.4" "5.6.7.8").2.2.2.2
     (by decide)⟩
